import Mathlib

/-
  A verification development for the rust-retrofit repository.

  The definitions below are a shallow embedding of the code generator in
  src/retrofit-macros/src/service.rs (together with the small helpers it
  relies on in src/retrofit-macros/src/{header,request,response}.rs).
  The `service` attribute there receives a Rust trait whose methods carry
  verb/path/args/headers attributes and expands it into a client struct
  with one generated method body per required trait method.

  Modelling conventions:
  * syn syntax values (traits, methods, attributes, types) become plain
    inductive types; attribute payloads are carried pre-parsed, with a
    `tokens` constructor for payloads the generator never parses;
  * machine-level concerns (token streams, spans) are dropped; what the
    expansion produces is modelled as a `MethodImpl` record holding the
    data the generated body closes over, plus a `bindRequest` function
    modelling one execution of that body up to the transport call;
  * fallible steps (syn parse errors, the `.expect("request")` abort in
    `generate_methods`, rustc rejecting the expansion) are `Except`.
-/

set_option autoImplicit false

namespace Retrofit

/-- HTTP verbs as in the `http` crate's `Method`; `service.rs` only ever
constructs the first six, `custom` stands for `Method::from_bytes` in
`request.rs`. -/
inductive HttpMethod where
  | GET | HEAD | POST | PUT | PATCH | DELETE | TRACE | OPTIONS
  | custom (token : String)
  deriving DecidableEq, Repr

/-- The fragment of Rust expressions our analysis needs: an `#[args(x = e)]`
binding is either a variable reference or a string literal. The inferred
bindings `name = name` emitted by `generate_methods` are `var` nodes. -/
inductive Expr where
  | var (name : String)
  | lit (s : String)
  deriving DecidableEq, Repr

/-- Free variables of an expression, used to model rustc's name resolution
inside the generated `format!` call. -/
def exprVars : Expr → List String
  | .var n => [n]
  | .lit _ => []

/-- One `name = expr` item of an `#[args(...)]` attribute
(struct `Arg` in src/retrofit-macros/src/service.rs, lines 246-251). -/
structure ArgM where
  ident : String
  expr : Expr
  deriving DecidableEq, Repr

/-- One `name = "value"` item of a `#[headers(...)]` or
`#[default_headers(...)]` attribute (struct `Header` in service.rs,
lines 284-289). -/
structure HeaderM where
  name : String
  value : String
  deriving DecidableEq, Repr

/-- The decode expressions that `#[response(...)]` accepts, per
src/retrofit-macros/src/response.rs and the doc of `retrofit::response`. -/
inductive DecodeExpr where
  | json
  | text
  | textWithCharset (charset : String)
  | bytes
  | custom (src : String)
  deriving DecidableEq, Repr

/-- Payload of one outer attribute, pre-parsed to the shape each extractor
expects; `tokens` carries payloads `service.rs` never parses (for example
the body of `#[request(query)]`). -/
inductive AttrPayload where
  | pathLit (path : String)
  | argList (l : List ArgM)
  | headerList (l : List HeaderM)
  | respond (d : DecodeExpr)
  | tokens (raw : String)
  | empty
  deriving DecidableEq, Repr

/-- An outer attribute; `name` is the identifier the source compares with
`attr.path.is_ident(..)` (the `retrofit::` prefixed spelling is collapsed
into the same name, exactly as both arms of each source test do). -/
structure Attribute where
  name : String
  payload : AttrPayload
  deriving DecidableEq, Repr

/-- The fragment of `syn::Type` that `ensure_method_return_result`
inspects: a bare one-segment path without generic arguments (`ident`, the
only shape `path.is_ident` accepts), a two-argument generic application
such as `Result<T, E>`, a one-argument application such as `Vec<Repo>`,
a qualified path such as `Self::Error`, the unit type, and an
uninterpreted remainder. -/
inductive RustType where
  | ident (name : String)
  | app (base : String) (a b : RustType)
  | app1 (base : String) (a : RustType)
  | proj (base seg : String)
  | unitTy
  | other (repr : String)
  deriving DecidableEq, Repr

/-- Return type of a trait method: `default` is `syn::ReturnType::Default`
(no `->` at all), `ty` is `syn::ReturnType::Type`. -/
inductive ReturnTy where
  | default
  | ty (t : RustType)
  deriving DecidableEq, Repr

/-- A trait method as `service.rs` sees it: its name, the names of its
parameters (in scope inside the generated body), its outer attributes,
its return type, and whether it has a default body (`method.default`). -/
structure TraitMethod where
  name : String
  params : List String
  attrs : List Attribute
  output : ReturnTy
  hasDefault : Bool
  deriving DecidableEq, Repr

/-- An item of the service trait. -/
inductive TraitItem where
  | method (m : TraitMethod)
  | other
  deriving DecidableEq, Repr

/- ### The placeholder scanner (RE_FMT_ARG)

service.rs line 15 compiles the regex `\{(?P<name>\w+)(:[^\}]+)?\}` and
`generate_methods` walks `captures_iter` over the path template. The
scanner below is a character-level state machine equivalent to
`captures_iter` for this particular pattern: matches are found left to
right and do not overlap, a `\w+` run names the placeholder, and an
optional `:`-prefixed, nonempty, `}`-free suffix is accepted and recorded
separately from the name. -/

def openBrace : Char := Char.ofNat 123

def closeBrace : Char := Char.ofNat 125

/-- `\w` of the regex crate restricted to the ASCII identifiers that occur
in Rust path templates. -/
def isWordChar (c : Char) : Bool := c.isAlphanum || c = '_'

/-- One scanned piece of a path template: a literal character or a
placeholder `\x7bname\x7d` / `\x7bname:spec\x7d`. -/
inductive Seg where
  | lit (c : Char)
  | ph (name : String) (spec : Option String)
  deriving DecidableEq, Repr

/-- Scanner state: outside any candidate match, inside the `\w+` run of a
candidate, or inside the optional format-spec suffix. -/
inductive ScanState where
  | outside
  | inName (acc : List Char)
  | inSpec (name : List Char) (acc : List Char)
  deriving DecidableEq, Repr

/-- Process one template character, returning the segments that become
definite and the next state. A failed candidate match is flushed as the
literal characters it consumed, exactly as `captures_iter` resumes at the
next possible match position. -/
def stepChar (st : ScanState) (c : Char) : List Seg × ScanState :=
  match st with
  | .outside =>
    if c = openBrace then ([], .inName [])
    else ([.lit c], .outside)
  | .inName acc =>
    if isWordChar c then ([], .inName (acc ++ [c]))
    else if c = ':' then
      if acc.isEmpty then ([.lit openBrace, .lit c], .outside)
      else ([], .inSpec acc [])
    else if c = closeBrace then
      if acc.isEmpty then ([.lit openBrace, .lit c], .outside)
      else ([.ph ⟨acc⟩ none], .outside)
    else if c = openBrace then (.lit openBrace :: acc.map .lit, .inName [])
    else (.lit openBrace :: acc.map .lit ++ [.lit c], .outside)
  | .inSpec name acc =>
    if c = closeBrace then
      if acc.isEmpty then (.lit openBrace :: name.map .lit ++ [.lit ':', .lit c], .outside)
      else ([.ph ⟨name⟩ (some ⟨acc⟩)], .outside)
    else ([], .inSpec name (acc ++ [c]))

/-- Segments a pending candidate match contributes when the template ends
before the match completes. -/
def flushState : ScanState → List Seg
  | .outside => []
  | .inName acc => .lit openBrace :: acc.map .lit
  | .inSpec name acc => .lit openBrace :: name.map .lit ++ .lit ':' :: acc.map .lit

/-- Run the scanner over the remaining characters. -/
def scanGo (st : ScanState) : List Char → List Seg
  | [] => flushState st
  | c :: rest => (stepChar st c).1 ++ scanGo (stepChar st c).2 rest

/-- Scan a path template into literal characters and placeholders; this is
the model of iterating `RE_FMT_ARG.captures_iter` over the template. -/
def scan (s : String) : List Seg := scanGo .outside s.data

/-- Placeholder names of a scanned template, one entry per occurrence, in
order — the sequence of `cap["name"]` values of `captures_iter`. -/
def segNames (segs : List Seg) : List String :=
  segs.filterMap fun s => match s with
    | .ph n _ => some n
    | .lit _ => none

/-- Placeholder names captured in a template string. -/
def capturedNames (t : String) : List String := segNames (scan t)

/-- The source text of one placeholder: `\x7bname\x7d`, or
`\x7bname:spec\x7d` when a format-spec suffix is present. -/
def phString (n : String) (sp : Option String) : String :=
  "\x7b" ++ n ++
    (match sp with
     | some s => ":" ++ s
     | none => "") ++ "\x7d"

/- ### Attribute extractors of service.rs -/

/-- Sequencing of fallible steps over a list, short-circuiting at the
first error — the effect of `collect::<Result<Vec<_>>>()` and of the
panicking `.expect` inside an iterator in `generate_methods`. -/
def exceptMapList {α β : Type} (f : α → Except String β) : List α → Except String (List β)
  | [] => .ok []
  | a :: rest =>
    match f a with
    | .error e => .error e
    | .ok b =>
      match exceptMapList f rest with
      | .error e => .error e
      | .ok bs => .ok (b :: bs)

/-- Payload of one `#[args(...)]` attribute, as `attr.parse_args_with`
would produce it (service.rs lines 238-241). -/
def parseArgsPayload (a : Attribute) : Except String (List ArgM) :=
  match a.payload with
  | .argList l => .ok l
  | _ => .error "expected `name = expr` arguments"

/-- `extract_args` (service.rs lines 234-244): parse every attribute whose
path is the identifier `args` and concatenate the resulting bindings. -/
def extractArgs (attrs : List Attribute) : Except String (List ArgM) :=
  (exceptMapList parseArgsPayload (attrs.filter fun a => decide (a.name = "args"))).map List.flatten

/-- `extract_headers` (service.rs lines 271-282): find the first attribute
with the given identifier and parse its payload as comma-separated
`name = "value"` headers; no such attribute yields the empty list. -/
def extractHeaders (name : String) (attrs : List Attribute) : Except String (List HeaderM) :=
  match attrs.find? (fun a => decide (a.name = name)) with
  | some a =>
    match a.payload with
    | .headerList l => .ok l
    | _ => .error "expected `name = value` headers"
  | none => .ok []

/-- `extract` of src/retrofit-macros/src/response.rs (lines 9-16): find
the first `#[response(...)]` attribute and parse its payload as a decode
expression. -/
def extractResponse (attrs : List Attribute) : Except String (Option DecodeExpr) :=
  match attrs.find? (fun a => decide (a.name = "response")) with
  | some a =>
    match a.payload with
    | .respond d => .ok (some d)
    | _ => .error "expected a response expression"
  | none => .ok none

/-- The verb an attribute carries per `Request::extract` in service.rs
(lines 183-221): only the identifiers `get`, `head`, `patch`, `post`,
`put` and `delete` are recognized there — this version of the extractor
has no arms for `trace`, `options` or `http`. -/
def verbOfAttr (a : Attribute) : Option HttpMethod :=
  if a.name = "get" then some .GET
  else if a.name = "head" then some .HEAD
  else if a.name = "patch" then some .PATCH
  else if a.name = "post" then some .POST
  else if a.name = "put" then some .PUT
  else if a.name = "delete" then some .DELETE
  else none

/-- The compiled request metadata of one method (struct `Request` in
service.rs, lines 172-177). -/
structure RequestT where
  method : HttpMethod
  path : String
  args : List ArgM
  deriving DecidableEq, Repr

/-- Error text of `Request::extract` when no verb attribute matches
(service.rs lines 224-231). -/
def missingVerbMsgHead : String := "expected `get`, `post` or other request for the `"

/-- Closing part of the missing-verb error text. -/
def missingVerbMsgTail : String := "` method"

/-- The attribute loop of `Request::extract`: the first attribute carrying
a recognized verb wins and its payload is parsed as the path literal. -/
def extractLoop (methodName : String) (args : List ArgM) :
    List Attribute → Except String RequestT
  | [] => .error (missingVerbMsgHead ++ methodName ++ missingVerbMsgTail)
  | a :: rest =>
    match verbOfAttr a with
    | some v =>
      match a.payload with
      | .pathLit p => .ok ⟨v, p, args⟩
      | _ => .error "expected a path string literal"
    | none => extractLoop methodName args rest

/-- `Request::extract` (service.rs lines 180-231): extract the `#[args]`
bindings, then scan the attributes for the first verb annotation. -/
def RequestT.extract (m : TraitMethod) : Except String RequestT := do
  let args ← extractArgs m.attrs
  extractLoop m.name args m.attrs

/- ### Header map generation -/

/-- The `to_dashed` conversion of the `case` crate applied to header
identifiers (service.rs line 303): word boundaries and underscores become
dashes and letters are lowercased, so `cache_control` becomes
`cache-control`. -/
def dashedChars : List Char → Bool → List Char
  | [], _ => []
  | c :: rest, first =>
    if c = '_' then '-' :: dashedChars rest false
    else if c.isUpper then
      (if first then [c.toLower] else ['-', c.toLower]) ++ dashedChars rest false
    else c :: dashedChars rest false

/-- Header-name normalization to the dashed wire form. -/
def toDashed (s : String) : String := ⟨dashedChars s.data true⟩

/-- A `reqwest::header::HeaderMap` value, modelled as its entry list. -/
abbrev HeaderMap : Type := List (String × String)

/-- `HeaderMap::insert`: associate the key with the new value and remove
all previously stored values for that key (the documented semantics of
the `http` crate's `insert`, which both generated code paths call). -/
def insertHeader (m : HeaderMap) (k v : String) : HeaderMap :=
  (List.filter (fun p => decide (p.1 ≠ k)) m) ++ [(k, v)]

/-- `generate_header_map` (service.rs lines 301-319): start from
`HeaderMap::new()` and `insert` each declared header under its dashed
name. -/
def generateHeaderMap (hs : List HeaderM) : HeaderMap :=
  hs.foldl (fun m h => insertHeader m (toDashed h.name) h.value) []

/-- Number of values stored for a given header name. -/
def headerValueCount (m : HeaderMap) (k : String) : Nat :=
  List.countP (fun p => decide (p.1 = k)) m

/- ### Return-type rewriting -/

/-- The `path.is_ident("Result")` test of `ensure_method_return_result`
(service.rs line 90): true exactly for a bare one-segment `Result` path
without generic arguments. -/
def isIdentResult : RustType → Bool
  | .ident n => decide (n = "Result")
  | _ => false

/-- The `Self::Error` type inserted by the rewrite. -/
def selfErrorTy : RustType := .proj "Self" "Error"

/-- `Result<t, Self::Error>` as built by `parse_quote!` on line 98. -/
def wrapResult (t : RustType) : RustType := .app "Result" t selfErrorTy

/-- The per-type action of `ensure_method_return_result`: a declared type
is kept when it is the bare `Result` identifier and wrapped otherwise. -/
def returnTypeRewrite (t : RustType) : RustType :=
  if isIdentResult t then t else wrapResult t

/-- `ensure_method_return_result` (service.rs lines 84-106): for every
trait method without a default body whose output is an explicit type,
apply the rewrite; `ReturnType::Default` outputs and defaulted methods
are untouched. -/
def ensureMethodReturnResult (items : List TraitItem) : List TraitItem :=
  items.map fun item =>
    match item with
    | .method m =>
      if m.hasDefault then .method m
      else
        match m.output with
        | .ty t => .method { m with output := .ty (returnTypeRewrite t) }
        | .default => .method m
    | .other => .other

/- ### The generated method body

`generate_methods` (service.rs lines 108-170) emits, for every required
trait method, a body of the shape

    let url = format!(concat!("\x7bbase_url\x7d", #path), base_url = self.base_url, #args);
    let mut req = self.client.get(&url);
    req = req.headers(#headers);   // only when `#[headers]` is present
    let res = req.send()?;
    res.json()

Note two hard-coded choices of the emitted body: the request is always
built with `self.client.get` whatever verb `Request::extract` returned,
and the response is always handed to `res.json()` whatever
`#[response(...)]` declares. -/

/-- The named `format!` arguments emitted for a method (service.rs lines
119-139): the explicit `#[args]` bindings first, then one inferred
`name = name` binding for every captured placeholder whose name no
explicit binding covers. -/
def generateFormatArgs (args : List ArgM) (path : String) : List ArgM :=
  args ++ (capturedNames path).filterMap fun n =>
    if args.any (fun a => decide (a.ident = n)) then none
    else some ⟨n, .var n⟩

/-- The decode call the generated body performs; `res.json()` is the only
call this version of `generate_methods` ever emits. -/
inductive DecodeKind where
  | json
  | text
  | bytes
  | customCall
  deriving DecidableEq, Repr

/-- Everything the expansion of one trait method closes over. -/
structure MethodImpl where
  name : String
  params : List String
  path : String
  fmtArgs : List ArgM
  headers : Option HeaderMap
  verb : HttpMethod
  decode : DecodeKind
  deriving DecidableEq, Repr

/-- Expansion of one required trait method (`generate_methods`, service.rs
lines 115-169): `Request::extract(...).expect("request")` aborts the whole
expansion on error (modelled as `Except.error`), a `#[headers]` parse
error embeds `compile_error!` into the output (also a definition-time
failure, modelled the same way), and the emitted body fixes the verb to
GET and the decode step to `res.json()`. -/
def generateMethod (m : TraitMethod) : Except String MethodImpl := do
  let req ← RequestT.extract m
  let hs ← extractHeaders "headers" m.attrs
  pure
    { name := m.name
      params := m.params
      path := req.path
      fmtArgs := generateFormatArgs req.args req.path
      headers := if hs.isEmpty then none else some (generateHeaderMap hs)
      verb := HttpMethod.GET
      decode := DecodeKind.json }

/-- The trait methods `generate_methods` iterates over: items that are
methods without a default body (service.rs lines 109-114). -/
def requiredMethods (items : List TraitItem) : List TraitMethod :=
  items.filterMap fun i =>
    match i with
    | .method m => if m.hasDefault then none else some m
    | .other => none

/-- Expansion of all required methods of the trait; any per-method failure
is fatal for the whole `service` expansion. -/
def generateMethodsE (items : List TraitItem) : Except String (List MethodImpl) :=
  exceptMapList generateMethod (requiredMethods items)

/- ### Runtime evaluation of one generated body -/

/-- Evaluate a binding expression in the scope of the call's parameters
(the formatted string value each `format!` argument contributes). -/
def evalExpr (env : List (String × String)) : Expr → Option String
  | .var n => env.lookup n
  | .lit s => some s

/-- The expression bound to a `format!` argument name: the first binding
in the list wins, as duplicate named arguments are rejected by rustc. -/
def lookupArg (bs : List ArgM) (n : String) : Option Expr :=
  (bs.find? (fun b => decide (b.ident = n))).map fun b => b.expr

/-- The string a placeholder name resolves to during one call. -/
def bindingValue (bs : List ArgM) (env : List (String × String)) (n : String) : Option String :=
  (lookupArg bs n).bind (evalExpr env)

/-- Definition-time checks rustc applies to the emitted `format!` call:
duplicate named arguments are an error, and every variable referenced by
a binding expression must resolve to a method parameter in scope —
an inferred `name = name` binding for a placeholder that is neither an
explicit `#[args]` binding nor a parameter fails here with rustc's
cannot-find-value error. -/
def checkBindings (bs : List ArgM) (params : List String) : Except String (List ArgM) :=
  if (bs.map fun b => b.ident).Nodup then
    if bs.all (fun b => (exprVars b.expr).all fun v => decide (v ∈ params)) then .ok bs
    else .error "cannot find value in this scope"
  else .error "duplicate argument"

/-- The definition-time fate of the `format!` arguments a method's path
template gives rise to: build the bindings `generate_methods` emits and
run rustc's checks over them. -/
def compileBindings (args : List ArgM) (path : String) (params : List String) :
    Except String (List ArgM) :=
  checkBindings (generateFormatArgs args path) params

/-- Substitution pass of `format!` over the scanned template: literal
characters are copied and each placeholder is replaced by the value its
name resolves to (the format-spec suffix plays no role in resolution). -/
def renderSegs (segs : List Seg) (σ : String → Option String) : Option String :=
  match segs with
  | [] => some ""
  | .lit c :: rest => (renderSegs rest σ).map fun s => c.toString ++ s
  | .ph n _ :: rest =>
    match σ n, renderSegs rest σ with
    | some v, some s => some (v ++ s)
    | _, _ => none

/-- Modelled from the spec: the substituted template as section 4.1 and
section 8 of the specification describe it — the template with every
occurrence of a placeholder replaced by the bound value's string form.
This is the comparison definition for the refinement claim about path
resolution; the code-side pipeline is `checkBindings` plus `renderSegs`. -/
def specSubstitution (segs : List Seg) (σ : String → String) : String :=
  match segs with
  | [] => ""
  | .lit c :: rest => c.toString ++ specSubstitution rest σ
  | .ph n _ :: rest => σ n ++ specSubstitution rest σ

/-- The outbound request descriptor the generated body hands to reqwest:
the verb of the builder method used, the absolute URL, the header map
explicitly set on the request, the query pairs attached to the URL, and
the decode step applied to the response. -/
structure RequestDescriptor where
  verb : HttpMethod
  url : String
  headers : HeaderMap
  query : List (String × String)
  decode : DecodeKind
  deriving DecidableEq, Repr

/-- One execution of a generated body up to the transport call: resolve
the `format!` arguments, render the URL as `self.base_url` followed by
the substituted path, and build the request. The emitted body never
attaches a query string — no code path of `generate_methods` touches
`req.query`, so `query` is always empty whatever attributes the method
declared. -/
def bindRequest (impl : MethodImpl) (baseUrl : String) (env : List (String × String)) :
    Except String RequestDescriptor := do
  let bs ← checkBindings impl.fmtArgs impl.params
  match renderSegs (scan impl.path) (bindingValue bs env) with
  | some p =>
    .ok
      { verb := impl.verb
        url := baseUrl ++ p
        headers := impl.headers.getD []
        query := []
        decode := impl.decode }
  | none => .error "unresolved placeholder"

/- ### Client lifecycle (the `service` wrapper function)

The expansion of `#[service]` (service.rs lines 33-59) is a free function
that declares the client struct and returns

    ClientName {
        client: reqwest::blocking::Client::builder()
            .user_agent(APP_USER_AGENT)
            .default_headers(#default_headers)
            .build()
            .expect("client"),
        base_url: base_url.to_string(),
    }

so the reqwest client is built inside the constructor itself, before any
method can run. The trace below records which observable client
operations each phase performs. -/

/-- Observable operations against the reqwest client. -/
inductive ClientOp where
  | build
  | getUrl (u : String)
  | setHeaders
  | send
  | jsonDecode
  deriving DecidableEq, Repr

/-- How many times the client builder ran in a trace. -/
def countBuilds (l : List ClientOp) : Nat :=
  List.countP
    (fun o =>
      match o with
      | ClientOp.build => true
      | _ => false)
    l

/-- The fixed user agent `concat!(env!(CARGO_PKG_NAME), "/", env!(CARGO_PKG_VERSION))`. -/
def appUserAgent : String := "retrofit/0.1.0"

/-- The built reqwest client: its user agent and default headers. -/
structure BuiltClient where
  userAgent : String
  defaults : HeaderMap
  deriving DecidableEq, Repr

/-- The generated client struct (service.rs lines 35-38): the built
client and the base URL. -/
structure FacadeClient where
  client : BuiltClient
  base_url : String
  deriving DecidableEq, Repr

/-- Construction of the service value (service.rs lines 50-57): the
client builder runs here, once, eagerly — the construction trace contains
exactly one `build`. -/
def serviceConstructTrace (defaultHs : List HeaderM) (baseUrl : String) :
    FacadeClient × List ClientOp :=
  (⟨⟨appUserAgent, generateHeaderMap defaultHs⟩, baseUrl⟩, [ClientOp.build])

/-- Operations one method call performs against the client (the generated
body, service.rs lines 156-168): build the GET request, optionally set
the method headers, send, decode — never a client build. A binding that
fails to compile performs nothing. -/
def callOps (impl : MethodImpl) (f : FacadeClient) (env : List (String × String)) :
    List ClientOp :=
  match bindRequest impl f.base_url env with
  | .ok d =>
    ClientOp.getUrl d.url ::
      ((match impl.headers with
        | some _ => [ClientOp.setHeaders]
        | none => []) ++ [ClientOp.send, ClientOp.jsonDecode])
  | .error _ => []

/- ### Helper lemmas -/

/-- Structural size of a type term, used to show wrapping changes it. -/
def tySize : RustType → Nat
  | .ident _ => 1
  | .app _ a b => 1 + tySize a + tySize b
  | .app1 _ a => 1 + tySize a
  | .proj _ _ => 1
  | .unitTy => 1
  | .other _ => 1

theorem tySize_lt_wrap (t : RustType) : tySize t < tySize (wrapResult t) := by
  simp [wrapResult, tySize]
  omega

theorem wrapResult_ne (t : RustType) : wrapResult t ≠ t := by
  intro h
  have := congrArg tySize h
  have hlt := tySize_lt_wrap t
  omega

theorem countBuilds_callOps (impl : MethodImpl) (f : FacadeClient)
    (env : List (String × String)) : countBuilds (callOps impl f env) = 0 := by
  unfold callOps
  cases bindRequest impl f.base_url env with
  | error e => rfl
  | ok d =>
    cases impl.headers <;>
      simp [countBuilds, List.countP_cons, List.countP_append]

theorem countBuilds_flatten_zero (ls : List (List ClientOp))
    (h : ∀ l ∈ ls, countBuilds l = 0) : countBuilds ls.flatten = 0 := by
  induction ls with
  | nil => rfl
  | cons a rest ih =>
    have ha := h a (List.mem_cons_self a rest)
    have hrest := ih fun l hl => h l (List.mem_cons_of_mem a hl)
    simp only [List.flatten_cons, countBuilds, List.countP_append] at *
    omega

theorem extractLoop_all_none (nm : String) (args : List ArgM) (attrs : List Attribute)
    (h : ∀ a ∈ attrs, verbOfAttr a = none) :
    extractLoop nm args attrs = .error (missingVerbMsgHead ++ nm ++ missingVerbMsgTail) := by
  induction attrs with
  | nil => rfl
  | cons a rest ih =>
    have ha := h a (List.mem_cons_self a rest)
    have hrest := ih fun b hb => h b (List.mem_cons_of_mem a hb)
    simp [extractLoop, ha, hrest]

theorem exceptMapList_error_of_mem {α β : Type} (f : α → Except String β)
    (xs : List α) (x : α) (hx : x ∈ xs) (e : String) (hfx : f x = .error e) :
    ∃ e2, exceptMapList f xs = .error e2 := by
  induction xs with
  | nil => cases hx
  | cons a rest ih =>
    cases hax : f a with
    | error e3 => exact ⟨e3, by simp [exceptMapList, hax]⟩
    | ok b =>
      rcases List.mem_cons.mp hx with h | h
      · rw [h] at hfx
        rw [hfx] at hax
        cases hax
      · rcases ih h with ⟨e2, h2⟩
        exact ⟨e2, by simp [exceptMapList, hax, h2]⟩

theorem data_open_brace : "\x7b".data = [openBrace] := by decide

theorem data_colon_char : ":".data = [':'] := by decide

theorem data_close_brace : "\x7d".data = [closeBrace] := by decide

theorem scanGo_cons (st : ScanState) (c : Char) (rest : List Char) :
    scanGo st (c :: rest) = (stepChar st c).1 ++ scanGo (stepChar st c).2 rest := rfl

theorem stepChar_inName_colon (acc : List Char) (h : acc.isEmpty = false) :
    stepChar (.inName acc) ':' = ([], .inSpec acc []) := by
  simp [stepChar, (by decide : isWordChar ':' = false), h]

theorem stepChar_inSpec_close (nameChars acc : List Char) (h : acc.isEmpty = false) :
    stepChar (.inSpec nameChars acc) closeBrace
      = ([.ph ⟨nameChars⟩ (some ⟨acc⟩)], .outside) := by
  simp [stepChar, h]

theorem scanGo_inName_words : ∀ (l acc rest : List Char),
    (∀ c ∈ l, isWordChar c = true) →
    scanGo (.inName acc) (l ++ rest) = scanGo (.inName (acc ++ l)) rest := by
  intro l
  induction l with
  | nil =>
    intro acc rest _
    simp
  | cons c l2 ih =>
    intro acc rest h
    have hc := h c (List.mem_cons_self c l2)
    have hrest := fun b hb => h b (List.mem_cons_of_mem c hb)
    rw [List.cons_append, scanGo_cons]
    simp only [stepChar, hc, if_true, List.nil_append]
    show scanGo (ScanState.inName (acc ++ [c])) (l2 ++ rest)
      = scanGo (ScanState.inName (acc ++ c :: l2)) rest
    rw [ih (acc ++ [c]) rest hrest, ← List.append_cons]

theorem scanGo_inSpec_chars : ∀ (l acc rest nameChars : List Char),
    (∀ c ∈ l, c ≠ closeBrace) →
    scanGo (.inSpec nameChars acc) (l ++ rest)
      = scanGo (.inSpec nameChars (acc ++ l)) rest := by
  intro l
  induction l with
  | nil =>
    intro acc rest nameChars _
    simp
  | cons c l2 ih =>
    intro acc rest nameChars h
    have hc := h c (List.mem_cons_self c l2)
    have hrest := fun b hb => h b (List.mem_cons_of_mem c hb)
    rw [List.cons_append, scanGo_cons]
    simp only [stepChar, hc, if_false, List.nil_append]
    show scanGo (ScanState.inSpec nameChars (acc ++ [c])) (l2 ++ rest)
      = scanGo (ScanState.inSpec nameChars (acc ++ c :: l2)) rest
    rw [ih (acc ++ [c]) rest nameChars hrest, ← List.append_cons]

theorem scan_phString (x spec : String)
    (hx : x.data ≠ []) (hxw : ∀ c ∈ x.data, isWordChar c = true)
    (hs : spec.data ≠ []) (hsb : ∀ c ∈ spec.data, c ≠ closeBrace) :
    scan (phString x (some spec)) = [Seg.ph x (some spec)] := by
  have hxe : x.data.isEmpty = false := by
    cases h2 : x.data with
    | nil => exact absurd h2 hx
    | cons a l => rfl
  have hse : spec.data.isEmpty = false := by
    cases h2 : spec.data with
    | nil => exact absurd h2 hs
    | cons a l => rfl
  have hdata : (phString x (some spec)).data
      = openBrace :: (x.data ++ (':' :: (spec.data ++ [closeBrace]))) := by
    show ((("\x7b" ++ x) ++ (":" ++ spec)) ++ "\x7d").data
      = openBrace :: (x.data ++ (':' :: (spec.data ++ [closeBrace])))
    rw [String.data_append, String.data_append, String.data_append, String.data_append,
      data_open_brace, data_colon_char, data_close_brace]
    simp only [List.append_assoc, List.cons_append, List.nil_append, List.singleton_append]
  rw [scan, hdata, scanGo_cons]
  show scanGo (ScanState.inName []) (x.data ++ (':' :: (spec.data ++ [closeBrace])))
    = [Seg.ph x (some spec)]
  rw [scanGo_inName_words x.data [] _ hxw]
  show scanGo (ScanState.inName x.data) (':' :: (spec.data ++ [closeBrace]))
    = [Seg.ph x (some spec)]
  rw [scanGo_cons, stepChar_inName_colon x.data hxe]
  show scanGo (ScanState.inSpec x.data []) (spec.data ++ [closeBrace])
    = [Seg.ph x (some spec)]
  rw [scanGo_inSpec_chars spec.data [] _ x.data hsb]
  show scanGo (ScanState.inSpec x.data spec.data) [closeBrace] = [Seg.ph x (some spec)]
  rw [scanGo_cons, stepChar_inSpec_close x.data spec.data hse]
  rfl

theorem renderSegs_eq_specSubstitution (segs : List Seg) (σ : String → Option String)
    (h : ∀ n ∈ segNames segs, (σ n).isSome = true) :
    renderSegs segs σ = some (specSubstitution segs (fun n => (σ n).getD "")) := by
  induction segs with
  | nil => rfl
  | cons s rest ih =>
    cases s with
    | lit c =>
      have hrest : ∀ n ∈ segNames rest, (σ n).isSome = true := h
      simp [renderSegs, specSubstitution, ih hrest]
    | ph n sp =>
      have hn : (σ n).isSome = true := h n (List.mem_cons_self n (segNames rest))
      rcases Option.isSome_iff_exists.mp hn with ⟨v, hv⟩
      have hrest : ∀ m ∈ segNames rest, (σ m).isSome = true := fun m hm =>
        h m (List.mem_cons_of_mem n hm)
      simp [renderSegs, specSubstitution, hv, ih hrest]

theorem checkBindings_ok_eq (bs0 bs : List ArgM) (params : List String)
    (h : checkBindings bs0 params = .ok bs) : bs = bs0 := by
  rw [checkBindings] at h
  by_cases h1 : (bs0.map fun b => b.ident).Nodup
  · rw [if_pos h1] at h
    by_cases h2 : bs0.all (fun b => (exprVars b.expr).all fun v => decide (v ∈ params)) = true
    · rw [if_pos h2] at h
      exact (Except.ok.inj h).symm
    · rw [if_neg h2] at h
      exact absurd h (by simp)
  · rw [if_neg h1] at h
    exact absurd h (by simp)

theorem bindRequest_ok_bindings (impl : MethodImpl) (baseUrl : String)
    (env : List (String × String))
    (h : checkBindings impl.fmtArgs impl.params = .ok impl.fmtArgs) :
    bindRequest impl baseUrl env
      = match renderSegs (scan impl.path) (bindingValue impl.fmtArgs env) with
        | some p =>
          .ok ⟨impl.verb, baseUrl ++ p, impl.headers.getD [], [], impl.decode⟩
        | none => .error "unresolved placeholder" := by
  unfold bindRequest
  rw [h]
  rfl

theorem args_unique_entry (args : List ArgM) (x : String) (e : Expr)
    (hmem : (⟨x, e⟩ : ArgM) ∈ args)
    (hnodup : (args.map fun a => a.ident).Nodup) :
    args.filter (fun b => decide (b.ident = x)) = [⟨x, e⟩]
    ∧ args.find? (fun b => decide (b.ident = x)) = some ⟨x, e⟩ := by
  induction args with
  | nil => cases hmem
  | cons a rest ih =>
    rw [List.map_cons, List.nodup_cons] at hnodup
    rcases List.mem_cons.mp hmem with h | h
    · subst h
      have hrest : rest.filter (fun b => decide (b.ident = x)) = [] := by
        rw [List.filter_eq_nil_iff]
        intro b hb hbx
        exact hnodup.1 (List.mem_map.mpr ⟨b, hb, of_decide_eq_true hbx⟩)
      constructor
      · rw [List.filter_cons]
        simp [hrest]
      · rw [List.find?_cons]
        simp
    · have hax : a.ident ≠ x := by
        intro hcontra
        exact hnodup.1
          (hcontra ▸ List.mem_map.mpr ⟨⟨x, e⟩, h, rfl⟩)
      have := ih h hnodup.2
      constructor
      · rw [List.filter_cons]
        simp [hax, this.1]
      · rw [List.find?_cons]
        simp [hax, this.2]

theorem find?_append_of_some {α : Type} (p : α → Bool) (l₁ l₂ : List α) (b : α)
    (h : l₁.find? p = some b) : (l₁ ++ l₂).find? p = some b := by
  induction l₁ with
  | nil => cases h
  | cons a rest ih =>
    rw [List.cons_append, List.find?_cons]
    rw [List.find?_cons] at h
    cases hp : p a with
    | true => simpa [hp] using h
    | false =>
      rw [hp] at h
      simpa [hp] using ih h

/- ### Example inputs used by the claim theorems -/

/-- A method annotated `#[post("/post")]`, as in the doc of
`retrofit::post` ("Make a POST request"). -/
def c1PostMethod : TraitMethod :=
  ⟨"post_item", ["self"], [⟨"post", .pathLit "/post"⟩], .ty (.other "serde_json::Value"), false⟩

/-- One header layer binding the wire name `accept` twice, as the layered
examples in the crate documentation do. -/
def c2Headers : List HeaderM :=
  [⟨"accept", "application/vnd.github.v3+json"⟩,
   ⟨"accept", "application/vnd.github.mercy-preview+json"⟩]

/-- The `#[get("/base64/{value}")] #[response(text())]` method from the
doc of `retrofit::get` and `retrofit::response`. -/
def c4TextMethod : TraitMethod :=
  ⟨"base64", ["self", "value"],
   [⟨"get", .pathLit "/base64/{value}"⟩, ⟨"response", .respond .text⟩],
   .ty (.ident "String"), false⟩

/-- The `#[get("/get")] #[request(query)]` method from the doc of
`retrofit::request`. -/
def c5QueryMethod : TraitMethod :=
  ⟨"get_args", ["self", "query"],
   [⟨"get", .pathLit "/get"⟩, ⟨"request", .tokens "query"⟩],
   .ty (.other "serde_json::Value"), false⟩

/-- The expansion `generate_methods` produces for `c5QueryMethod`. -/
def c5Impl : MethodImpl :=
  ⟨"get_args", ["self", "query"], "/get", [], none, HttpMethod.GET, DecodeKind.json⟩

/-- A declared method with no explicit return type, as in the doc of
`retrofit::headers` (`fn root(&self);`). -/
def c8RootMethod : TraitMethod :=
  ⟨"root", ["self"], [⟨"get", .pathLit "/"⟩], ReturnTy.default, false⟩

/-- A declared method returning the plain value type `Repo`. -/
def c8RepoMethod : TraitMethod :=
  ⟨"get_repo", ["self", "owner", "repo"],
   [⟨"get", .pathLit "/repos/{owner}/{repo}"⟩], .ty (.ident "Repo"), false⟩

/- ### Claim theorems -/

/-- C1 — the claim says the verb extracted from the method's annotation is
the verb used when the request is executed. The code refutes this:
`Request::extract` does return POST for a `#[post]` method, but the body
emitted by `generate_methods` builds every request with
`self.client.get(&url)` (service.rs line 163), so the outbound descriptor
carries GET, not the declared POST. -/
theorem c1_declared_verb_dropped :
    RequestT.extract c1PostMethod = .ok ⟨HttpMethod.POST, "/post", []⟩
    ∧ (generateMethod c1PostMethod).map (fun i => i.verb) = .ok HttpMethod.GET
    ∧ HttpMethod.POST ≠ HttpMethod.GET :=
  ⟨rfl, rfl, by decide⟩

/-- C2 — the claim says header composition appends and never overwrites,
so a name bound twice keeps both values. The code refutes this:
`generate_header_map` (service.rs lines 301-319) emits `headers.insert`,
which removes all previous values for the key, so of two bindings of
`accept` only the last survives and the duplicate key is collapsed to a
single entry. -/
theorem c2_header_insert_overwrites :
    generateHeaderMap c2Headers = [("accept", "application/vnd.github.mercy-preview+json")]
    ∧ headerValueCount (generateHeaderMap c2Headers) "accept" = 1 :=
  ⟨rfl, rfl⟩

/-- C3 counterexample — the claim says the transport client is constructed
lazily on first use, i.e. constructing the service façade itself performs
no client build. The code refutes this: the expansion of `#[service]`
invokes `reqwest::blocking::Client::builder()...build()` inside the
constructor function (service.rs lines 50-57), so the construction trace
already contains a build before any call. -/
theorem c3_lazy_first_use_refuted :
    ¬ countBuilds (serviceConstructTrace [] "https://api.github.com").2 = 0 := by
  decide

/-- C3 amended — the transport client is constructed eagerly, exactly once,
when the service façade is constructed; no method call ever invokes the
builder, so the build count of any execution (construction followed by
arbitrarily many calls) is exactly one. -/
theorem c3_client_built_eagerly_once (dh : List HeaderM) (u : String)
    (calls : List (MethodImpl × List (String × String))) :
    countBuilds
      ((serviceConstructTrace dh u).2 ++
        (calls.map fun c => callOps c.1 (serviceConstructTrace dh u).1 c.2).flatten) = 1 := by
  have hflat :
      countBuilds (calls.map fun c => callOps c.1 (serviceConstructTrace dh u).1 c.2).flatten = 0 := by
    refine countBuilds_flatten_zero _ ?_
    intro l hl
    rcases List.mem_map.mp hl with ⟨c, _, rfl⟩
    exact countBuilds_callOps _ _ _
  simp only [countBuilds] at hflat ⊢
  rw [List.countP_append, hflat]
  rfl

/-- C4 — the claim says a method declaring the `text` decode strategy
returns the body decoded as text with no JSON parsing attempted. The code
refutes this: the `#[response(text())]` declaration is extractable (as
`extract` in response.rs shows), but the body emitted by
`generate_methods` ends in `res.json()` unconditionally (service.rs line
166), so the generated method JSON-parses the body and performs no text
decode. -/
theorem c4_text_decode_ignored :
    extractResponse c4TextMethod.attrs = .ok (some DecodeExpr.text)
    ∧ (generateMethod c4TextMethod).map (fun i => i.decode) = .ok DecodeKind.json
    ∧ DecodeKind.json ≠ DecodeKind.text :=
  ⟨rfl, rfl, by decide⟩

/-- C5 — the claim says a method declared with the `query` encoding gets
its name/value pairs appended to the URL query string. The code refutes
this: the `request` attribute is a no-op marker (request.rs lines 22-24)
that `generate_methods` never reads, and the emitted body never calls
`req.query`, so the bound request of the documented
`#[get("/get")] #[request(query)]` method carries an empty query and a
bare URL whatever pairs the caller supplies. -/
theorem c5_query_encoding_ignored :
    generateMethod c5QueryMethod = .ok c5Impl
    ∧ bindRequest c5Impl "http://httpbin.org" [("query", "foo=a&foo=b")]
        = .ok ⟨HttpMethod.GET, "http://httpbin.org/get", [], [], DecodeKind.json⟩ :=
  ⟨rfl, rfl⟩

/-- C8 — the claim says every declared method returns an error-carrying
result, and in particular a method with no explicit return type returns a
payload-free result. The code refutes the latter:
`ensure_method_return_result` only rewrites `ReturnType::Type` outputs
(service.rs lines 87-101), so `fn root(&self);` keeps returning unit — no
`Result` of any kind — while a method with an explicit value type such as
`Repo` does get wrapped to `Result<Repo, Self::Error>`. -/
theorem c8_unit_return_not_wrapped :
    ensureMethodReturnResult [.method c8RootMethod] = [.method c8RootMethod]
    ∧ c8RootMethod.output = ReturnTy.default
    ∧ ensureMethodReturnResult [.method c8RepoMethod]
        = [.method { c8RepoMethod with output := .ty (wrapResult (.ident "Repo")) }]
    ∧ ∀ t : RustType, ReturnTy.default ≠ ReturnTy.ty t :=
  ⟨rfl, rfl, rfl, fun _ h => ReturnTy.noConfusion h⟩

/-- A method whose path repeats the placeholder `x`, with `x` bound only
by a method parameter of the same name. -/
def c6DupMethod : TraitMethod :=
  ⟨"list_both", ["self", "x"], [⟨"get", .pathLit "/a/{x}/b/{x}"⟩],
   .ty (.other "serde_json::Value"), false⟩

/-- The expansion `generate_methods` produces for `c6DupMethod`: one
inferred `x = x` binding per captured occurrence, since the skip check on
service.rs line 127 only consults the explicit `#[args]` bindings. -/
def c6DupImpl : MethodImpl :=
  ⟨"list_both", ["self", "x"], "/a/{x}/b/{x}",
   [⟨"x", .var "x"⟩, ⟨"x", .var "x"⟩], none, HttpMethod.GET, DecodeKind.json⟩

/-- C6 counterexample — the claim says resolving a template substitutes
every occurrence of a bound placeholder `\x7bx\x7d`, failing only when `x`
is unbound. The code refutes this as stated: for `/a/\x7bx\x7d/b/\x7bx\x7d`
with `x` bound by a method parameter, `generate_methods` emits the
`format!` arguments `x = x, x = x` (one inferred binding per occurrence),
which rustc rejects as a duplicate named argument, so the method fails at
definition time and no substituted request — in particular not the
expected `/a/v/b/v` one — is ever produced. -/
theorem c6_repeated_placeholder_refuted :
    "x" ∈ capturedNames "/a/{x}/b/{x}"
    ∧ "x" ∈ c6DupMethod.params
    ∧ generateMethod c6DupMethod = .ok c6DupImpl
    ∧ compileBindings [] "/a/{x}/b/{x}" ["self", "x"] = .error "duplicate argument"
    ∧ bindRequest c6DupImpl "https://api.example.com" [("x", "v")]
        = .error "duplicate argument"
    ∧ bindRequest c6DupImpl "https://api.example.com" [("x", "v")]
        ≠ .ok ⟨HttpMethod.GET, "https://api.example.com/a/v/b/v", [], [], DecodeKind.json⟩ :=
  ⟨by decide, by decide, rfl, rfl, rfl, fun h => Except.noConfusion h⟩

/-- C6 amended — path-template resolution, as far as the code supports it.
For a template `t` with a captured placeholder named `x`: (a) if `x` is
bound neither by an explicit `#[args]` binding nor by a method parameter
named `x`, the emitted `format!` arguments fail rustc's definition-time
checks; (b) a placeholder written with a format-spec suffix `:spec`
inside the braces is still scanned and its captured name is `x`, the
suffix being kept apart from the name; (c) whenever the emitted bindings
do pass the definition-time checks (`compileBindings` returns them) —
which excludes templates where a placeholder bound only by a method
parameter occurs more than once — and every captured name evaluates,
rendering equals the specification-side substitution, with `x`
contributing exactly its bound value `v`; (d) under the same gate, the
request bound by the generated body carries the URL `baseUrl` followed by
that fully substituted path. -/
theorem c6_path_resolution_amended
    (t : String) (args : List ArgM) (params : List String)
    (env : List (String × String)) (x v : String)
    (hx : x ∈ capturedNames t) :
    ((∀ a ∈ args, a.ident ≠ x) → x ∉ params →
      ∃ e, compileBindings args t params = Except.error e)
    ∧ (∀ spec : String, x.data ≠ [] → (∀ c ∈ x.data, isWordChar c = true) →
        spec.data ≠ [] → (∀ c ∈ spec.data, c ≠ closeBrace) →
        scan (phString x (some spec)) = [Seg.ph x (some spec)])
    ∧ (∀ bs, compileBindings args t params = Except.ok bs →
        (∀ n ∈ capturedNames t, (bindingValue bs env n).isSome = true) →
        bindingValue bs env x = some v →
        renderSegs (scan t) (bindingValue bs env)
            = some (specSubstitution (scan t)
                (fun n => (bindingValue bs env n).getD ""))
          ∧ (bindingValue bs env x).getD "" = v)
    ∧ (∀ (nm : String) (hdrs : Option HeaderMap) (verb : HttpMethod)
        (dk : DecodeKind) (baseUrl : String),
        compileBindings args t params = Except.ok (generateFormatArgs args t) →
        (∀ n ∈ capturedNames t,
          (bindingValue (generateFormatArgs args t) env n).isSome = true) →
        bindRequest ⟨nm, params, t, generateFormatArgs args t, hdrs, verb, dk⟩ baseUrl env
          = Except.ok ⟨verb,
              baseUrl ++ specSubstitution (scan t)
                (fun n => (bindingValue (generateFormatArgs args t) env n).getD ""),
              hdrs.getD [], [], dk⟩) := by
  refine ⟨?_, ?_, ?_, ?_⟩
  · intro h1 h2
    have hany : args.any (fun a => decide (a.ident = x)) = false := by
      refine Bool.eq_false_iff.mpr fun hA => ?_
      rcases List.any_eq_true.mp hA with ⟨a, ha, hpa⟩
      exact h1 a ha (of_decide_eq_true hpa)
    have hmemInf : (⟨x, Expr.var x⟩ : ArgM) ∈ generateFormatArgs args t := by
      rw [generateFormatArgs]
      refine List.mem_append_right _ (List.mem_filterMap.mpr ⟨x, hx, ?_⟩)
      simp [hany]
    rw [compileBindings, checkBindings]
    by_cases hnd : ((generateFormatArgs args t).map fun b => b.ident).Nodup
    · rw [if_pos hnd]
      have hall :
          (generateFormatArgs args t).all
            (fun b => (exprVars b.expr).all fun w => decide (w ∈ params)) = false := by
        refine Bool.eq_false_iff.mpr fun hA => ?_
        have := List.all_eq_true.mp hA _ hmemInf
        simp [exprVars] at this
        exact h2 this
      rw [hall]
      exact ⟨_, rfl⟩
    · rw [if_neg hnd]
      exact ⟨_, rfl⟩
  · intro spec hxne hxw hsne hsb
    exact scan_phString x spec hxne hxw hsne hsb
  · intro bs hok hall hxv
    have hbs : bs = generateFormatArgs args t :=
      checkBindings_ok_eq (generateFormatArgs args t) bs params hok
    subst hbs
    refine ⟨renderSegs_eq_specSubstitution (scan t) _ hall, ?_⟩
    rw [hxv]
    rfl
  · intro nm hdrs verb dk baseUrl hok hall
    have hgate : checkBindings (generateFormatArgs args t) params
        = .ok (generateFormatArgs args t) := hok
    rw [bindRequest_ok_bindings ⟨nm, params, t, generateFormatArgs args t, hdrs, verb, dk⟩
      baseUrl env hgate]
    rw [renderSegs_eq_specSubstitution (scan t) _ hall]

/-- C6 witness — the template `/repos/\x7bowner\x7d` with the explicit
binding `owner = "octo"`: the placeholder is captured and the amended
theorem applies at this input. -/
theorem c6_path_resolution_amended_witness :
    ("owner" ∈ capturedNames "/repos/{owner}")
    ∧ (((∀ a ∈ [(⟨"owner", Expr.lit "octo"⟩ : ArgM)], a.ident ≠ "owner") →
          "owner" ∉ ["owner"] →
          ∃ e, compileBindings [⟨"owner", Expr.lit "octo"⟩] "/repos/{owner}" ["owner"]
            = Except.error e)
      ∧ (∀ spec : String, "owner".data ≠ [] →
          (∀ c ∈ "owner".data, isWordChar c = true) →
          spec.data ≠ [] → (∀ c ∈ spec.data, c ≠ closeBrace) →
          scan (phString "owner" (some spec)) = [Seg.ph "owner" (some spec)])
      ∧ (∀ bs, compileBindings [⟨"owner", Expr.lit "octo"⟩] "/repos/{owner}" ["owner"]
            = Except.ok bs →
          (∀ n ∈ capturedNames "/repos/{owner}", (bindingValue bs [] n).isSome = true) →
          bindingValue bs [] "owner" = some "octo" →
          renderSegs (scan "/repos/{owner}") (bindingValue bs [])
              = some (specSubstitution (scan "/repos/{owner}")
                  (fun n => (bindingValue bs [] n).getD ""))
            ∧ (bindingValue bs [] "owner").getD "" = "octo")
      ∧ (∀ (nm : String) (hdrs : Option HeaderMap) (verb : HttpMethod)
          (dk : DecodeKind) (baseUrl : String),
          compileBindings [⟨"owner", Expr.lit "octo"⟩] "/repos/{owner}" ["owner"]
            = Except.ok (generateFormatArgs [⟨"owner", Expr.lit "octo"⟩] "/repos/{owner}") →
          (∀ n ∈ capturedNames "/repos/{owner}",
            (bindingValue (generateFormatArgs [⟨"owner", Expr.lit "octo"⟩] "/repos/{owner}")
              [] n).isSome = true) →
          bindRequest ⟨nm, ["owner"], "/repos/{owner}",
              generateFormatArgs [⟨"owner", Expr.lit "octo"⟩] "/repos/{owner}",
              hdrs, verb, dk⟩ baseUrl []
            = Except.ok ⟨verb,
                baseUrl ++ specSubstitution (scan "/repos/{owner}")
                  (fun n =>
                    (bindingValue (generateFormatArgs [⟨"owner", Expr.lit "octo"⟩]
                      "/repos/{owner}") [] n).getD ""),
                hdrs.getD [], [], dk⟩)) :=
  ⟨by decide,
   c6_path_resolution_amended "/repos/{owner}" [⟨"owner", Expr.lit "octo"⟩] ["owner"]
     [] "owner" "octo" (by decide)⟩

/-- C7 — when a path placeholder name is bound both by an explicit
`#[args]` binding and by a same-named method parameter, exactly one
binding for that name reaches the `format!` call, and it is the explicit
one: the inference step of `generate_methods` (service.rs lines 122-135)
skips every captured name an explicit binding covers, so the binding list
contains the explicit entry once and name lookup resolves to its
expression. -/
theorem c7_explicit_arg_precedence
    (args : List ArgM) (t : String) (params : List String) (x : String) (e : Expr)
    (hmem : (⟨x, e⟩ : ArgM) ∈ args)
    (hnodup : (args.map fun a => a.ident).Nodup)
    (hcap : x ∈ capturedNames t)
    (hparam : x ∈ params) :
    (generateFormatArgs args t).filter (fun b => decide (b.ident = x)) = [⟨x, e⟩]
    ∧ lookupArg (generateFormatArgs args t) x = some e := by
  have huniq := args_unique_entry args x e hmem hnodup
  have hinf :
      ((capturedNames t).filterMap fun n =>
        if args.any (fun a => decide (a.ident = n)) then none
        else some (⟨n, .var n⟩ : ArgM)).filter (fun b => decide (b.ident = x)) = [] := by
    rw [List.filter_eq_nil_iff]
    intro b hb hbx
    rcases List.mem_filterMap.mp hb with ⟨n, _, hn⟩
    by_cases hany : args.any (fun a => decide (a.ident = n)) = true
    · simp [hany] at hn
    · rw [Bool.not_eq_true] at hany
      simp only [hany, if_neg Bool.false_ne_true, Option.some.injEq] at hn
      have hnx : n = x := by
        have := of_decide_eq_true hbx
        rw [← hn] at this
        exact this
      subst hnx
      have : args.any (fun a => decide (a.ident = n)) = true :=
        List.any_eq_true.mpr ⟨⟨n, e⟩, hmem, by simp⟩
      rw [this] at hany
      cases hany
  constructor
  · rw [generateFormatArgs, List.filter_append, huniq.1, hinf, List.append_nil]
  · rw [generateFormatArgs, lookupArg,
      find?_append_of_some _ args _ ⟨x, e⟩ huniq.2]
    rfl

/-- C7 witness — `#[args(owner = "octo")]` together with a parameter named
`owner` and the template `/repos/\x7bowner\x7d`: the explicit binding is
the single one reaching substitution. -/
theorem c7_explicit_arg_precedence_witness :
    ((⟨"owner", Expr.lit "octo"⟩ : ArgM) ∈ [(⟨"owner", Expr.lit "octo"⟩ : ArgM)]
      ∧ ([(⟨"owner", Expr.lit "octo"⟩ : ArgM)].map fun a => a.ident).Nodup
      ∧ "owner" ∈ capturedNames "/repos/{owner}"
      ∧ "owner" ∈ ["owner", "repo"])
    ∧ ((generateFormatArgs [⟨"owner", Expr.lit "octo"⟩] "/repos/{owner}").filter
          (fun b => decide (b.ident = "owner")) = [⟨"owner", Expr.lit "octo"⟩]
      ∧ lookupArg (generateFormatArgs [⟨"owner", Expr.lit "octo"⟩] "/repos/{owner}") "owner"
          = some (Expr.lit "octo")) :=
  ⟨⟨by decide, by decide, by decide, by decide⟩,
   c7_explicit_arg_precedence [⟨"owner", Expr.lit "octo"⟩] "/repos/{owner}"
     ["owner", "repo"] "owner" (Expr.lit "octo")
     (by decide) (by decide) (by decide) (by decide)⟩

/-- A method whose only request annotation is `#[http(custom(...))]` — a
form this version of `Request::extract` does not recognize at all. -/
def c9CustomMethod : TraitMethod :=
  ⟨"custom_endpoint", ["self"], [⟨"http", .tokens "custom(/custom/endpoint/)"⟩],
   ReturnTy.default, false⟩

/-- C9 — a method definition carrying no recognized HTTP-verb annotation
makes the whole `service` expansion fail at definition time: the
`Request::extract` loop (service.rs lines 183-231) falls through to an
error whose message names the offending method, and the
`.expect("request")` in `generate_methods` (line 117) turns that error
into an abort of the expansion, so no client code containing the method
is ever emitted. -/
theorem c9_missing_verb_rejected
    (m : TraitMethod) (items : List TraitItem) (al : List ArgM)
    (hargs : extractArgs m.attrs = .ok al)
    (hnd : m.hasDefault = false)
    (hverb : ∀ a ∈ m.attrs, verbOfAttr a = none)
    (hmem : TraitItem.method m ∈ items) :
    RequestT.extract m = .error (missingVerbMsgHead ++ m.name ++ missingVerbMsgTail)
    ∧ (∃ p q : String,
        missingVerbMsgHead ++ m.name ++ missingVerbMsgTail = p ++ m.name ++ q)
    ∧ ∃ e, generateMethodsE items = .error e := by
  have hext : RequestT.extract m
      = .error (missingVerbMsgHead ++ m.name ++ missingVerbMsgTail) := by
    rw [RequestT.extract, hargs]
    exact extractLoop_all_none m.name al m.attrs hverb
  refine ⟨hext, ⟨missingVerbMsgHead, missingVerbMsgTail, rfl⟩, ?_⟩
  have hgen : generateMethod m
      = .error (missingVerbMsgHead ++ m.name ++ missingVerbMsgTail) := by
    rw [generateMethod, hext]
    rfl
  have hreq : m ∈ requiredMethods items := by
    refine List.mem_filterMap.mpr ⟨.method m, hmem, ?_⟩
    simp [hnd]
  exact exceptMapList_error_of_mem generateMethod (requiredMethods items) m hreq _ hgen

/-- C9 witness — the `#[http(custom(...))]` method of the crate's doc, as
the single item of a trait: its extraction fails with a message carrying
the method name and the whole expansion fails. -/
theorem c9_missing_verb_rejected_witness :
    (extractArgs c9CustomMethod.attrs = .ok [] ∧ c9CustomMethod.hasDefault = false
      ∧ (∀ a ∈ c9CustomMethod.attrs, verbOfAttr a = none)
      ∧ TraitItem.method c9CustomMethod ∈ [TraitItem.method c9CustomMethod])
    ∧ (RequestT.extract c9CustomMethod
        = .error (missingVerbMsgHead ++ c9CustomMethod.name ++ missingVerbMsgTail)
      ∧ (∃ p q : String,
          missingVerbMsgHead ++ c9CustomMethod.name ++ missingVerbMsgTail
            = p ++ c9CustomMethod.name ++ q)
      ∧ ∃ e, generateMethodsE [TraitItem.method c9CustomMethod] = .error e) :=
  ⟨⟨rfl, rfl, by decide, by decide⟩,
   c9_missing_verb_rejected c9CustomMethod [TraitItem.method c9CustomMethod] []
     rfl rfl (by decide) (by decide)⟩

/-- C10 — the return-type rewrite leaves a declared return type unchanged
exactly when it is the single bare identifier `Result` without type
arguments; any other declared type, including an explicitly parameterized
`Result<T, E>`, is wrapped into `Result<_, Self::Error>` — so a
parameterized `Result` return type is wrapped a second time. -/
theorem c10_result_return_rewrite :
    (∀ t : RustType, returnTypeRewrite t = t ↔ t = RustType.ident "Result")
    ∧ (∀ a b : RustType,
        returnTypeRewrite (.app "Result" a b) = .app "Result" (.app "Result" a b) selfErrorTy)
    ∧ ∀ (nm : String) (ps : List String) (ats : List Attribute) (t : RustType),
        ensureMethodReturnResult [.method ⟨nm, ps, ats, .ty t, false⟩]
          = [.method ⟨nm, ps, ats, .ty (returnTypeRewrite t), false⟩] := by
  refine ⟨fun t => ⟨fun h => ?_, fun h => ?_⟩, fun a b => ?_, fun nm ps ats t => ?_⟩
  · by_cases hb : isIdentResult t = true
    · cases t <;> simp [isIdentResult] at hb
      simp [hb]
    · have : returnTypeRewrite t = wrapResult t := by
        simp [returnTypeRewrite, hb]
      rw [this] at h
      exact absurd h (wrapResult_ne t)
  · subst h
    simp [returnTypeRewrite, isIdentResult]
  · rfl
  · rfl

end Retrofit
